import Mathlib

/-!
Verification of `tensor2robot/meta_learning/maml_inner_loop.py`
(`MAMLInnerLoopGradientDescent`), as a shallow embedding.

Modelling decisions, in order of appearance in the source:

* Tensors are symbolic expressions (`Tensor`): variables, integer literals,
  `a - b`, `a * b` and `tf.stop_gradient`.  `Tensor.eval` gives their value
  semantics; `stop_gradient` is the identity on values.
* Python dictionaries keyed by variable names become insertion-ordered
  association lists (`dictGet` / `setKey` mirror `d[k]` / `d[k] = v`).
* `tf.gradients([loss], values)` is an external autodiff provider; per its
  contract it returns one optional gradient per value, positionally.  It is
  modelled by a per-value function `gradOf : PyVal -> Tensor -> Option Tensor`
  mapped over the value list.
* `tf.get_variable` under `tf.variable_scope('inner_loop', ...)` becomes an
  explicit variable store (`TFState.store`).  A scope opened with the custom
  getter consults `_custom_getter_variable_cache` first and materializes into
  both the store and the cache on a miss; a scope opened with `reuse=True`
  (and no custom getter, source line 321) reads the store only and never
  creates.
* `inference_network_fn` is abstracted by the list of variable names it
  resolves plus a function of the resolved values (`ModelFns`); Python
  exceptions become `Except Err`.
* `inner_loop` additionally records a ghost trace of events (one `forward`
  event per `inference_network_fn` call, one `applyGrads` event per
  `_compute_and_apply_gradients` call) so that step-counting claims can be
  stated.
-/

set_option maxHeartbeats 1000000

namespace Maml

/-- Symbolic tensors: graph nodes built by the inner loop. -/
inductive Tensor where
  | var (name : String)
  | lit (n : Int)
  | sub (a b : Tensor)
  | mul (a b : Tensor)
  | stopGradient (t : Tensor)
  deriving Repr, DecidableEq, Inhabited

/-- Value semantics of a tensor; `stop_gradient` is the identity on values
(it only cuts the backward graph). -/
def Tensor.eval (env : String → Int) : Tensor → Int
  | .var n => env n
  | .lit v => v
  | .sub a b => a.eval env - b.eval env
  | .mul a b => a.eval env * b.eval env
  | .stopGradient t => t.eval env

/-- Python values that can cross the `model_train_fn` boundary. -/
inductive PyVal where
  | tensor (t : Tensor)
  | tuple (elems : List PyVal)
  | str (s : String)
  | bool (b : Bool)
  | noneVal
  deriving Inhabited

/-- Errors raised by the source file: the `ValueError` of
`_compute_and_apply_gradients` (empty cache), the `ValueError` of
`_extract_train_loss`, Python `IndexError`s, and the TensorFlow scope
errors for creating an existing variable / reusing a missing one. -/
inductive Err where
  | precondition
  | valueError
  | indexError
  | varExists
  | reuseMiss
  deriving Repr, DecidableEq

/-- Python dictionary lookup `d[k]` on an insertion-ordered association
list (first match; keys are unique in every dict we build). -/
def dictGet {α : Type} : List (String × α) → String → Option α
  | [], _ => none
  | kv :: rest, n => if kv.1 = n then some kv.2 else dictGet rest n

/-- Python dictionary assignment `d[k] = v`: update in place when the key
exists (keeping insertion order), append otherwise. -/
def setKey {α : Type} : List (String × α) → String → α → List (String × α)
  | [], k, v => [(k, v)]
  | kv :: rest, k, v => if kv.1 = k then (k, v) :: rest else kv :: setKey rest k v

/-- Python's `str.startswith`, computed on the character lists. -/
def nameStartsWith (name pre : String) : Bool :=
  List.isPrefixOf pre.data name.data

/-- A cache generation: `{variable name -> tensor}` in insertion order
(`self._custom_getter_variable_cache` and the entries of
`self._variable_cache`). -/
abbrev Cache := List (String × Tensor)

/-- The learning-rate registry `self._lr_cache`. -/
abbrev LrCache := List (String × Tensor)

/-- Constructor arguments of `MAMLInnerLoopGradientDescent.__init__`
(the immutable configuration part). -/
structure Config where
  learningRate : Tensor
  useSecondOrder : Bool
  varScope : Option String
  learnInnerLr : Bool
  deriving Repr, DecidableEq

/-- The mutable instance state: `self._variable_cache` (history of
generations), `self._custom_getter_variable_cache` (current generation),
and `self._lr_cache`. -/
structure State where
  variableCache : List Cache
  customGetterVariableCache : Cache
  lrCache : LrCache
  deriving Repr, DecidableEq, Inhabited

/-- Name of the learning-rate variable created by `_get_learning_rate`:
`'_'.join(var_name.split('/')) + '_inner_lr'` inside the
`inner_learning_rates` scope (source lines 88-93). -/
def lrScopedName (varName : String) : String :=
  "inner_learning_rates/" ++ String.intercalate "_" (varName.splitOn "/") ++ "_inner_lr"

/-- `_get_learning_rate` (source lines 83-95): look the name up in
`self._lr_cache`; on a miss create the scalar variable (initialized at the
configured base learning rate, with `tf.AUTO_REUSE`) and record it.
Returns the learning rate together with the updated registry. -/
def getLearningRate (lrc : LrCache) (varName : String) : Tensor × LrCache :=
  match dictGet lrc varName with
  | some lr => (lr, lrc)
  | none =>
    let lr := Tensor.var (lrScopedName varName)
    (lr, lrc ++ [(varName, lr)])

/-- A sequence of `_get_learning_rate` calls, keeping only the registry
state (used to speak about the lifetime of one instance). -/
def runCalls : LrCache → List String → LrCache
  | lrc, [] => lrc
  | lrc, m :: ms => runCalls (getLearningRate lrc m).2 ms

/-- `custom_getter_fn` (source lines 116-138) over an abstract original
getter: if `name` is not yet in the cache, invoke the getter and store the
result; then return `cache[name]`. -/
def customGetterFn (getter : String → Tensor) (cache : Cache) (name : String) :
    Option Tensor × Cache :=
  let cache2 := if (dictGet cache name).isNone then cache ++ [(name, getter name)] else cache
  (dictGet cache2 name, cache2)

/-- The scope filter of `_compute_and_apply_gradients` (source lines
174-175): `ignore_var = var_scope is not None and not
name.startswith(var_scope)`. -/
def ignoreVar (cfg : Config) (name : String) : Bool :=
  match cfg.varScope with
  | none => false
  | some scope => !(nameStartsWith name scope)

/-- Source lines 184-185: `if not self._use_second_order: scaled_gradient =
tf.stop_gradient(scaled_gradient)`. -/
def maybeStop (cfg : Config) (t : Tensor) : Tensor :=
  if cfg.useSecondOrder then t else Tensor.stopGradient t

/-- The `for name, gradient in zip(variable_list, gradients)` loop of
`_compute_and_apply_gradients` (source lines 172-187).  Each list element
is `(name, old value, optional gradient)`; the accumulator is the new
cache being populated and the threaded learning-rate registry. -/
def processVars (cfg : Config) :
    List (String × Tensor × Option Tensor) → Cache → LrCache → Cache × LrCache
  | [], newCache, lrc => (newCache, lrc)
  | e :: rest, newCache, lrc =>
    match e.2.2 with
    | none => processVars cfg rest (newCache ++ [(e.1, e.2.1)]) lrc
    | some gradient =>
      if ignoreVar cfg e.1 then
        processVars cfg rest (newCache ++ [(e.1, e.2.1)]) lrc
      else
        let lrp := if cfg.learnInnerLr then getLearningRate lrc e.1
                   else (cfg.learningRate, lrc)
        processVars cfg rest
          (newCache ++ [(e.1, Tensor.sub e.2.1 (maybeStop cfg (Tensor.mul lrp.1 gradient)))])
          lrp.2

/-- Outcome of `_compute_and_apply_gradients`: either a Python exception
(carrying the instance state as it stands when the exception is raised) or
the updated instance state. -/
inductive CAGOutcome where
  | raised (e : Err) (s : State)
  | ok (s : State)
  deriving Repr, DecidableEq

/-- `_compute_and_apply_gradients` (source lines 142-187).  `gradFn` is
the autodiff provider applied to the loss: the (optional) gradient of the
loss with respect to each cached value.  The raise on an empty cache
happens before any state mutation. -/
def computeAndApplyGradients (cfg : Config) (gradFn : Tensor → Option Tensor)
    (s : State) : CAGOutcome :=
  if s.customGetterVariableCache = [] then CAGOutcome.raised Err.precondition s
  else
    let variableCacheOld := s.customGetterVariableCache
    let newPair := processVars cfg
      (variableCacheOld.map (fun nv => (nv.1, nv.2, gradFn nv.2))) [] s.lrCache
    CAGOutcome.ok
      { variableCache := s.variableCache ++ [variableCacheOld]
        customGetterVariableCache := newPair.1
        lrCache := newPair.2 }

/-- The per-name learning rate used by one `_compute_and_apply_gradients`
call, as a function of the name and the registry state at call entry. -/
def lrFor (cfg : Config) (lrc : LrCache) (n : String) : Tensor :=
  if cfg.learnInnerLr then (getLearningRate lrc n).1 else cfg.learningRate

/-- The value stored for one parameter by the update loop, as a function
of that parameter's entry alone (plus the configuration and the
learning-rate registry at call entry). -/
def newValueFor (cfg : Config) (lrc : LrCache) (n : String) (v : Tensor) :
    Option Tensor → Tensor
  | none => v
  | some g =>
    if ignoreVar cfg n then v
    else Tensor.sub v (maybeStop cfg (Tensor.mul (lrFor cfg lrc n) g))

/-- `_extract_train_loss` (source lines 189-210): a `tf.Tensor` is
returned unchanged, a tuple yields `train_fn_result[0]` (an `IndexError`
when the tuple is empty), anything else raises the `ValueError`. -/
def extractTrainLoss : PyVal → Except Err PyVal
  | PyVal.tensor t => Except.ok (PyVal.tensor t)
  | PyVal.tuple [] => Except.error Err.indexError
  | PyVal.tuple (x :: _) => Except.ok x
  | PyVal.str _ => Except.error Err.valueError
  | PyVal.bool _ => Except.error Err.valueError
  | PyVal.noneVal => Except.error Err.valueError

/-- How a `tf.variable_scope('inner_loop', ...)` block resolves variables:
with the custom getter installed (source lines 265, 291, 308) or with
`reuse=True` and no custom getter (source line 321). -/
inductive VarMode where
  | customGetter
  | reuseOnly
  deriving Repr, DecidableEq

/-- Ghost trace events of one `inner_loop` run: one `forward` per
`inference_network_fn` call (recording the scope mode, the features, the
`params['is_inner_loop']` flag and the resolved variables), one
`applyGrads` per `_compute_and_apply_gradients` call. -/
inductive Event where
  | forward (mode : VarMode) (features : Tensor) (isInnerLoop : Bool)
      (resolved : List (String × Tensor))
  | applyGrads
  deriving Repr, DecidableEq

def isApplyGrads : Event → Bool
  | Event.applyGrads => true
  | _ => false

/-- Number of `_compute_and_apply_gradients` invocations recorded in a
trace. -/
def countAG (t : List Event) : Nat := (t.filter isApplyGrads).length

/-- The TensorFlow-level state: the global variable store of the
`inner_loop` scope plus the instance state of the orchestrator. -/
structure TFState where
  store : Cache
  inner : State
  deriving Repr, DecidableEq, Inhabited

/-- The `params` dictionary. -/
abbrev Params := List (String × PyVal)

/-- The current value of `params['is_inner_loop']`. -/
def isInnerLoopOf (p : Params) : Bool :=
  match dictGet p "is_inner_loop" with
  | some (PyVal.bool b) => b
  | _ => false

/-- The external collaborators of `inner_loop`: `inference_network_fn`
(abstracted by the variable names it resolves and a function of the
resolved values), `model_train_fn`, the autodiff provider, and the
backing initializers of the model's variables. -/
structure ModelFns where
  infNames : Tensor → Tensor → Params → List String
  infOut : Tensor → Tensor → Params → List Tensor → Tensor
  trainFn : Tensor → Tensor → Tensor → Params → PyVal
  gradOf : PyVal → Tensor → Option Tensor
  init : String → Tensor

/-- Result of resolving a list of variable names inside one scope. -/
structure ResolveResult where
  resolved : List (String × Tensor)
  tf : TFState
  deriving Repr, DecidableEq

/-- Variable resolution under the custom getter (source lines 135-138
composed with the original `tf.get_variable`): cache hit returns the
cached tensor; cache miss materializes a fresh variable (an existing
store entry would make `tf.get_variable` raise, since the scope is not
opened with reuse) and records it in both the store and the cache. -/
def resolveVarsCG (init : String → Tensor) :
    List String → TFState → Except Err ResolveResult
  | [], tf => Except.ok ⟨[], tf⟩
  | name :: rest, tf =>
    match dictGet tf.inner.customGetterVariableCache name with
    | some v =>
      match resolveVarsCG init rest tf with
      | Except.error e => Except.error e
      | Except.ok rr => Except.ok ⟨(name, v) :: rr.resolved, rr.tf⟩
    | none =>
      match dictGet tf.store name with
      | some _ => Except.error Err.varExists
      | none =>
        let v := init name
        let tf2 : TFState :=
          { store := tf.store ++ [(name, v)]
            inner := { tf.inner with
              customGetterVariableCache :=
                tf.inner.customGetterVariableCache ++ [(name, v)] } }
        match resolveVarsCG init rest tf2 with
        | Except.error e => Except.error e
        | Except.ok rr => Except.ok ⟨(name, v) :: rr.resolved, rr.tf⟩

/-- Variable resolution under `tf.variable_scope('inner_loop', reuse=True)`
(source line 321): every name must already exist in the store; nothing is
created and no state changes. -/
def resolveVarsRO :
    List String → TFState → Except Err ResolveResult
  | [], tf => Except.ok ⟨[], tf⟩
  | name :: rest, tf =>
    match dictGet tf.store name with
    | none => Except.error Err.reuseMiss
    | some v =>
      match resolveVarsRO rest tf with
      | Except.error e => Except.error e
      | Except.ok rr => Except.ok ⟨(name, v) :: rr.resolved, rr.tf⟩

def resolveVars (mode : VarMode) (init : String → Tensor)
    (names : List String) (tf : TFState) : Except Err ResolveResult :=
  match mode with
  | VarMode.customGetter => resolveVarsCG init names tf
  | VarMode.reuseOnly => resolveVarsRO names tf

/-- Result of one `inference_network_fn` call. -/
structure ForwardResult where
  outs : Tensor
  tf : TFState
  ev : Event
  deriving Repr, DecidableEq

/-- One `inference_network_fn(features, labels, mode, params)` call inside
a `tf.variable_scope('inner_loop', ...)` block. -/
def forwardPass (mode : VarMode) (m : ModelFns) (f l : Tensor) (params : Params)
    (tf : TFState) : Except Err ForwardResult :=
  match resolveVars mode m.init (m.infNames f l params) tf with
  | Except.error e => Except.error e
  | Except.ok rr =>
    Except.ok ⟨m.infOut f l params (rr.resolved.map Prod.snd), rr.tf,
               Event.forward mode f (isInnerLoopOf params) rr.resolved⟩

/-- Lift `_compute_and_apply_gradients` to the TF-level state, turning the
Python exception into `Except`. -/
def applyGradientsStep (cfg : Config) (m : ModelFns) (loss : PyVal) (tf : TFState) :
    Except Err TFState :=
  match computeAndApplyGradients cfg (m.gradOf loss) tf.inner with
  | CAGOutcome.raised e _ => Except.error e
  | CAGOutcome.ok s2 => Except.ok { tf with inner := s2 }

/-- Accumulator of the `for train_features, train_labels in
inputs_list[:-1]` loop (source lines 264-286). -/
structure LoopAcc where
  tf : TFState
  innerOutputs : List Tensor
  innerLosses : List PyVal
  trace : List Event
  deriving Inhabited

/-- One iteration of the adaptation loop (source lines 264-286): forward
pass under the custom getter, `model_train_fn`, `_extract_train_loss`,
then `_compute_and_apply_gradients`. -/
def adaptStep (cfg : Config) (m : ModelFns) (params : Params) (acc : LoopAcc)
    (batch : Tensor × Tensor) : Except Err LoopAcc :=
  match forwardPass VarMode.customGetter m batch.1 batch.2 params acc.tf with
  | Except.error e => Except.error e
  | Except.ok fr =>
    match extractTrainLoss (m.trainFn batch.1 batch.2 fr.outs params) with
    | Except.error e => Except.error e
    | Except.ok loss =>
      match applyGradientsStep cfg m loss fr.tf with
      | Except.error e => Except.error e
      | Except.ok tf2 =>
        Except.ok ⟨tf2, acc.innerOutputs ++ [fr.outs], acc.innerLosses ++ [loss],
                   acc.trace ++ [fr.ev, Event.applyGrads]⟩

/-- The adaptation loop over `inputs_list[:-1]`. -/
def adaptLoop (cfg : Config) (m : ModelFns) (params : Params) :
    List (Tensor × Tensor) → LoopAcc → Except Err LoopAcc
  | [], acc => Except.ok acc
  | b :: bs, acc =>
    match adaptStep cfg m params acc b with
    | Except.error e => Except.error e
    | Except.ok acc2 => adaptLoop cfg m params bs acc2

/-- Return value of `inner_loop`: `[unconditioned, conditioned]` outputs,
the inner outputs and losses, the final `params` dictionary, the final
TF-level state, and the ghost trace. -/
structure InnerLoopResult where
  outputs : List Tensor
  innerOutputs : List Tensor
  innerLosses : List PyVal
  params : Params
  tf : TFState
  trace : List Event
  deriving Inhabited

/-- The part of `inner_loop` after the adaptation loop (source lines
288-327): the convergence-check pass on `inputs_list[-2]` (forward+loss,
no gradient step), the conditioned pass on the validation batch with
`params['is_inner_loop'] = False`, and the unconditioned pass on the
validation batch under `reuse=True` with `params['is_inner_loop'] =
True`. -/
def innerLoopTail (cfg : Config) (m : ModelFns) (params1 : Params)
    (valF valL fconv lconv : Tensor) (acc : LoopAcc) : Except Err InnerLoopResult :=
  match forwardPass VarMode.customGetter m fconv lconv params1 acc.tf with
  | Except.error e => Except.error e
  | Except.ok frConv =>
    match extractTrainLoss (m.trainFn fconv lconv frConv.outs params1) with
    | Except.error e => Except.error e
    | Except.ok convLoss =>
      let params2 := setKey params1 "is_inner_loop" (PyVal.bool false)
      match forwardPass VarMode.customGetter m valF valL params2 frConv.tf with
      | Except.error e => Except.error e
      | Except.ok frCond =>
        let params3 := setKey params2 "is_inner_loop" (PyVal.bool true)
        match forwardPass VarMode.reuseOnly m valF valL params3 frCond.tf with
        | Except.error e => Except.error e
        | Except.ok frUncond =>
          Except.ok ⟨[frUncond.outs, frCond.outs],
                     acc.innerOutputs ++ [frConv.outs],
                     acc.innerLosses ++ [convLoss],
                     params3, frUncond.tf,
                     acc.trace ++ [frConv.ev, frCond.ev, frUncond.ev]⟩

/-- `inner_loop` (source lines 212-327).  `inputs_list[-1]` is the
validation batch (`IndexError` when the list is empty, source line 257);
the loop runs over `inputs_list[:-1]`; `inputs_list[-2]` is the
convergence-check batch (`IndexError` when the list has fewer than two
elements, source line 290).  `params` defaults to `{}` and
`params['is_inner_loop']` is set to `True` up front (source lines
261-263). -/
def innerLoop (cfg : Config) (m : ModelFns) (inputsList : List (Tensor × Tensor))
    (params0 : Option Params) (tf0 : TFState) : Except Err InnerLoopResult :=
  match inputsList.getLast? with
  | none => Except.error Err.indexError
  | some vl =>
    let params1 := setKey (params0.getD []) "is_inner_loop" (PyVal.bool true)
    match adaptLoop cfg m params1 inputsList.dropLast ⟨tf0, [], [], []⟩ with
    | Except.error e => Except.error e
    | Except.ok acc =>
      match inputsList.reverse[1]? with
      | none => Except.error Err.indexError
      | some fc => innerLoopTail cfg m params1 vl.1 vl.2 fc.1 fc.2 acc

/-- Project a successful run (used to state concrete facts about runs). -/
def okResult (x : Except Err InnerLoopResult) : InnerLoopResult :=
  match x with
  | Except.ok r => r
  | Except.error _ => default

def countAGOfRun : Except Err InnerLoopResult → Option Nat
  | Except.ok r => some (countAG r.trace)
  | Except.error _ => none

def lastTraceEvent : Except Err InnerLoopResult → Option Event
  | Except.ok r => r.trace.getLast?
  | Except.error _ => none

/-- Value of a name in the latest (adapted) generation cache after a run. -/
def latestCacheValue (x : Except Err InnerLoopResult) (n : String) : Option (Option Tensor) :=
  match x with
  | Except.ok r => some (dictGet r.tf.inner.customGetterVariableCache n)
  | Except.error _ => none

/-- Value of a name in the original TF variable store after a run. -/
def storeValue (x : Except Err InnerLoopResult) (n : String) : Option (Option Tensor) :=
  match x with
  | Except.ok r => some (dictGet r.tf.store n)
  | Except.error _ => none

/-! Concrete instances used by witnesses and counterexamples. -/

/-- A one-variable model: `inference_network_fn` resolves `"w"` and emits
its value; `model_train_fn` returns the outputs as the bare loss; every
gradient is the constant `1`; `"w"` is initialized to `5`. -/
def cexModel : ModelFns :=
  { infNames := fun _ _ _ => ["w"]
    infOut := fun _ _ _ vs => vs.headD (Tensor.lit 0)
    trainFn := fun _ _ outs _ => PyVal.tensor outs
    gradOf := fun _ _ => some (Tensor.lit 1)
    init := fun _ => Tensor.lit 5 }

def cexCfg : Config :=
  { learningRate := Tensor.lit 1, useSecondOrder := true
    varScope := none, learnInnerLr := false }

def cexInputs : List (Tensor × Tensor) :=
  [(Tensor.lit 10, Tensor.lit 11), (Tensor.lit 20, Tensor.lit 21)]

def cexTF0 : TFState := ⟨[], ⟨[], [], []⟩⟩

/-- A full two-batch run of `inner_loop` on the one-variable model. -/
def cexRun : Except Err InnerLoopResult :=
  innerLoop cexCfg cexModel cexInputs (some []) cexTF0

def wCfg : Config :=
  { learningRate := Tensor.lit 2, useSecondOrder := true
    varScope := none, learnInnerLr := false }

def wGradFn : Tensor → Option Tensor := fun _ => some (Tensor.lit 4)

def wState : State := ⟨[], [("a", Tensor.lit 3)], []⟩

def w2Cfg : Config :=
  { learningRate := Tensor.lit 1, useSecondOrder := true
    varScope := some "encoder", learnInnerLr := false }

def w2GradFn : Tensor → Option Tensor := fun _ => some (Tensor.lit 1)

def w2State : State :=
  ⟨[], [("decoder/weight", Tensor.lit 7), ("encoder/weight", Tensor.lit 8)], []⟩

def w5State : State := ⟨[], [], []⟩

def w9Cfg : Config :=
  { learningRate := Tensor.lit 2, useSecondOrder := false
    varScope := none, learnInnerLr := false }

def w9GradFn : Tensor → Option Tensor := fun _ => some (Tensor.lit 3)

def w9State : State := ⟨[], [("b", Tensor.lit 6)], []⟩

def w7Getter : String → Tensor := fun _ => Tensor.lit 9

def w7GetterB : String → Tensor := fun _ => Tensor.lit 8

def w7Cache : Cache := [("a", Tensor.lit 1)]

/-! Helper lemmas. -/

theorem dictGet_cons {α : Type} (k : String) (v : α) (rest : List (String × α)) (n : String) :
    dictGet ((k, v) :: rest) n = if k = n then some v else dictGet rest n := rfl

theorem dictGet_append_some {α : Type} {c c' : List (String × α)} {n : String} {v : α}
    (h : dictGet c n = some v) : dictGet (c ++ c') n = some v := by
  induction c with
  | nil => simp [dictGet] at h
  | cons kv rest ih =>
    simp only [dictGet, List.cons_append] at h ⊢
    by_cases hk : kv.1 = n
    · simpa [hk] using h
    · rw [if_neg hk] at h ⊢
      exact ih h

theorem dictGet_append_none {α : Type} {c : List (String × α)} {n : String}
    (c' : List (String × α)) (h : dictGet c n = none) :
    dictGet (c ++ c') n = dictGet c' n := by
  induction c with
  | nil => simp
  | cons kv rest ih =>
    simp only [dictGet, List.cons_append] at h ⊢
    by_cases hk : kv.1 = n
    · rw [if_pos hk] at h; cases h
    · rw [if_neg hk] at h ⊢
      exact ih h

theorem dictGet_setKey_self {α : Type} (p : List (String × α)) (k : String) (v : α) :
    dictGet (setKey p k v) k = some v := by
  induction p with
  | nil => simp [setKey, dictGet]
  | cons kv rest ih =>
    by_cases hk : kv.1 = k
    · simp [setKey, hk, dictGet]
    · simp [setKey, hk, dictGet, ih]

theorem dictGet_setKey_ne {α : Type} (p : List (String × α)) {k k' : String} (v : α)
    (h : k' ≠ k) : dictGet (setKey p k v) k' = dictGet p k' := by
  have h2 : k ≠ k' := Ne.symm h
  induction p with
  | nil => simp [setKey, dictGet, h2]
  | cons kv rest ih =>
    by_cases hk : kv.1 = k
    · have h3 : ¬kv.1 = k' := by rw [hk]; exact h2
      simp only [setKey, if_pos hk, dictGet]
      rw [if_neg h2, if_neg h3]
    · simp only [setKey, if_neg hk, dictGet]
      by_cases hk' : kv.1 = k'
      · rw [if_pos hk', if_pos hk']
      · rw [if_neg hk', if_neg hk']
        exact ih

theorem getLearningRate_dictGet_self (lrc : LrCache) (n : String) :
    dictGet (getLearningRate lrc n).2 n = some (getLearningRate lrc n).1 := by
  unfold getLearningRate
  cases h : dictGet lrc n with
  | some lr => simpa using h
  | none => simp [dictGet_append_none _ h, dictGet]

theorem getLearningRate_keeps {lrc : LrCache} {k : String} {v : Tensor} (n : String)
    (h : dictGet lrc k = some v) : dictGet (getLearningRate lrc n).2 k = some v := by
  unfold getLearningRate
  cases hm : dictGet lrc n with
  | some lr => exact h
  | none => exact dictGet_append_some h

theorem getLearningRate_dictGet_ne {m n : String} (lrc : LrCache) (h : m ≠ n) :
    dictGet (getLearningRate lrc m).2 n = dictGet lrc n := by
  unfold getLearningRate
  cases hm : dictGet lrc m with
  | some lr => rfl
  | none =>
    cases hn : dictGet lrc n with
    | some v => simp [dictGet_append_some hn, hn]
    | none => simp [dictGet_append_none _ hn, dictGet, h, hn]

theorem getLearningRate_of_dictGet {lrc : LrCache} {n : String} {v : Tensor}
    (h : dictGet lrc n = some v) : getLearningRate lrc n = (v, lrc) := by
  simp [getLearningRate, h]

theorem runCalls_keeps {lrc : LrCache} {k : String} {v : Tensor} (ms : List String)
    (h : dictGet lrc k = some v) : dictGet (runCalls lrc ms) k = some v := by
  induction ms generalizing lrc with
  | nil => exact h
  | cons m ms ih => exact ih (getLearningRate_keeps m h)

theorem lrFor_congr {cfg : Config} {lrc1 lrc2 : LrCache} {n : String}
    (h : dictGet lrc1 n = dictGet lrc2 n) : lrFor cfg lrc1 n = lrFor cfg lrc2 n := by
  unfold lrFor getLearningRate
  rw [h]
  cases dictGet lrc2 n <;> rfl

theorem newValueFor_congr {cfg : Config} {lrc1 lrc2 : LrCache} {n : String} {v : Tensor}
    (g : Option Tensor) (h : dictGet lrc1 n = dictGet lrc2 n) :
    newValueFor cfg lrc1 n v g = newValueFor cfg lrc2 n v g := by
  cases g with
  | none => rfl
  | some grad => simp [newValueFor, lrFor_congr h]

theorem processVars_acc (cfg : Config) (l : List (String × Tensor × Option Tensor))
    (acc : Cache) (lrc : LrCache) :
    processVars cfg l acc lrc =
      (acc ++ (processVars cfg l [] lrc).1, (processVars cfg l [] lrc).2) := by
  induction l generalizing acc lrc with
  | nil => simp [processVars]
  | cons e rest ih =>
    obtain ⟨n, v, g⟩ := e
    cases g with
    | none =>
      simp only [processVars, List.nil_append]
      rw [ih]
      conv_rhs => rw [ih]
      simp
    | some grad =>
      by_cases hig : ignoreVar cfg n
      · simp only [processVars, hig, if_true, List.nil_append]
        rw [ih]
        conv_rhs => rw [ih]
        simp
      · simp only [processVars, hig, if_false, Bool.false_eq_true, List.nil_append]
        rw [ih]
        conv_rhs => rw [ih]
        simp

theorem processVars_dictGet (cfg : Config) (l : List (String × Tensor × Option Tensor))
    (lrc : LrCache) (n : String) (v : Tensor) (g : Option Tensor)
    (hnodup : (l.map (fun e => e.1)).Nodup)
    (hmem : (n, v, g) ∈ l) :
    dictGet (processVars cfg l [] lrc).1 n = some (newValueFor cfg lrc n v g) := by
  induction l generalizing lrc with
  | nil => cases hmem
  | cons e rest ih =>
    obtain ⟨m, w, h⟩ := e
    simp only [List.map_cons, List.nodup_cons] at hnodup
    rcases List.mem_cons.mp hmem with heq | hrest
    · -- the entry under scrutiny is the head
      injection heq with h1 h23
      injection h23 with h2 h3
      subst h1
      subst h2
      subst h3
      cases g with
      | none =>
        simp only [processVars, List.nil_append]
        rw [processVars_acc]
        simp [dictGet, newValueFor]
      | some grad =>
        by_cases hig : ignoreVar cfg n
        · simp only [processVars, hig, if_true, List.nil_append]
          rw [processVars_acc]
          simp [dictGet, newValueFor, hig]
        · simp only [processVars, hig, if_false, Bool.false_eq_true, List.nil_append]
          rw [processVars_acc]
          simp only [List.singleton_append, dictGet_cons, if_pos rfl]
          have hlr : (if cfg.learnInnerLr then getLearningRate lrc n
              else (cfg.learningRate, lrc)).1 = lrFor cfg lrc n := by
            unfold lrFor
            by_cases hl : cfg.learnInnerLr <;> simp [hl]
          rw [hlr]
          simp [newValueFor, hig]
    · -- the entry under scrutiny is in the tail; the head's name differs
      have hmn : m ≠ n := by
        intro hEq
        exact hnodup.1 (hEq ▸ List.mem_map_of_mem (fun e => e.1) hrest)
      cases h with
      | none =>
        simp only [processVars, List.nil_append]
        rw [processVars_acc]
        simp only [List.singleton_append, dictGet_cons, if_neg hmn]
        exact ih lrc hnodup.2 hrest
      | some grad =>
        by_cases hig : ignoreVar cfg m
        · simp only [processVars, hig, if_true, List.nil_append]
          rw [processVars_acc]
          simp only [List.singleton_append, dictGet_cons, if_neg hmn]
          exact ih lrc hnodup.2 hrest
        · simp only [processVars, hig, if_false, Bool.false_eq_true, List.nil_append]
          rw [processVars_acc]
          simp only [List.singleton_append, dictGet_cons, if_neg hmn]
          by_cases hl : cfg.learnInnerLr
          · simp only [hl, if_true]
            rw [ih (getLearningRate lrc m).2 hnodup.2 hrest]
            exact congrArg some
              (newValueFor_congr g (getLearningRate_dictGet_ne lrc hmn))
          · simp only [hl, if_false, Bool.false_eq_true]
            exact ih lrc hnodup.2 hrest

theorem eval_maybeStop (cfg : Config) (t : Tensor) (env : String → Int) :
    (maybeStop cfg t).eval env = t.eval env := by
  unfold maybeStop
  by_cases h : cfg.useSecondOrder <;> simp [h, Tensor.eval]

/-- Unfolding of a `_compute_and_apply_gradients` call on a non-empty
cache. -/
theorem cag_eq (cfg : Config) (gradFn : Tensor → Option Tensor) (s : State)
    (hne : ¬s.customGetterVariableCache = []) :
    computeAndApplyGradients cfg gradFn s = CAGOutcome.ok
      ⟨s.variableCache ++ [s.customGetterVariableCache],
       (processVars cfg (s.customGetterVariableCache.map
         (fun nv => (nv.1, nv.2, gradFn nv.2))) [] s.lrCache).1,
       (processVars cfg (s.customGetterVariableCache.map
         (fun nv => (nv.1, nv.2, gradFn nv.2))) [] s.lrCache).2⟩ := by
  rw [computeAndApplyGradients, if_neg hne]

/-- Core description of one `_compute_and_apply_gradients` call on a
non-empty cache: it succeeds and the new cache's value under each cached
name is a function of that entry alone, `newValueFor`. -/
theorem cag_dictGet (cfg : Config) (gradFn : Tensor → Option Tensor) (s : State)
    (n : String) (v : Tensor)
    (hnodup : (s.customGetterVariableCache.map (fun nv => nv.1)).Nodup)
    (hmem : (n, v) ∈ s.customGetterVariableCache) :
    ∃ s', computeAndApplyGradients cfg gradFn s = CAGOutcome.ok s' ∧
      dictGet s'.customGetterVariableCache n =
        some (newValueFor cfg s.lrCache n v (gradFn v)) := by
  have hne : ¬s.customGetterVariableCache = [] := by
    intro h
    rw [h] at hmem
    cases hmem
  refine ⟨_, cag_eq cfg gradFn s hne, ?_⟩
  show dictGet (processVars cfg
      (s.customGetterVariableCache.map (fun nv => (nv.1, nv.2, gradFn nv.2)))
      [] s.lrCache).1 n = _
  apply processVars_dictGet
  · have hmap : ((s.customGetterVariableCache.map (fun nv => (nv.1, nv.2, gradFn nv.2))).map
        (fun e => e.1)) = s.customGetterVariableCache.map (fun nv => nv.1) := by
      rw [List.map_map]
      rfl
    rw [hmap]
    exact hnodup
  · exact List.mem_map_of_mem (fun nv => (nv.1, nv.2, gradFn nv.2)) hmem

/-! Lemmas about the inner-loop orchestration. -/

theorem getLast?_snoc {α : Type} (l : List α) (a : α) : (l ++ [a]).getLast? = some a := by
  induction l with
  | nil => rfl
  | cons x xs ih =>
    cases hxs : xs ++ [a] with
    | nil => exact absurd hxs (by simp)
    | cons y ys =>
      rw [List.cons_append, hxs, List.getLast?_cons_cons, ← hxs]
      exact ih

theorem resolveVarsRO_tf (names : List String) (tf : TFState) (rr : ResolveResult)
    (h : resolveVarsRO names tf = Except.ok rr) : rr.tf = tf := by
  induction names generalizing rr with
  | nil =>
    simp only [resolveVarsRO] at h
    injection h with h
    rw [← h]
  | cons name rest ih =>
    simp only [resolveVarsRO] at h
    cases hs : dictGet tf.store name with
    | none => rw [hs] at h; cases h
    | some v =>
      rw [hs] at h
      cases hr : resolveVarsRO rest tf with
      | error e => rw [hr] at h; cases h
      | ok rr2 =>
        rw [hr] at h
        injection h with h
        rw [← h]
        exact ih rr2 hr

theorem resolveVarsRO_resolved (names : List String) (tf : TFState) (rr : ResolveResult)
    (h : resolveVarsRO names tf = Except.ok rr) :
    ∀ nv ∈ rr.resolved, dictGet tf.store nv.1 = some nv.2 := by
  induction names generalizing rr with
  | nil =>
    simp only [resolveVarsRO] at h
    injection h with h
    rw [← h]
    intro nv hnv
    cases hnv
  | cons name rest ih =>
    simp only [resolveVarsRO] at h
    cases hs : dictGet tf.store name with
    | none => rw [hs] at h; cases h
    | some v =>
      rw [hs] at h
      cases hr : resolveVarsRO rest tf with
      | error e => rw [hr] at h; cases h
      | ok rr2 =>
        rw [hr] at h
        injection h with h
        rw [← h]
        intro nv hnv
        rcases List.mem_cons.mp hnv with heq | htail
        · rw [heq]
          exact hs
        · exact ih rr2 hr nv htail

theorem forwardPass_ev (mode : VarMode) (m : ModelFns) (f l : Tensor) (params : Params)
    (tf : TFState) (fr : ForwardResult)
    (h : forwardPass mode m f l params tf = Except.ok fr) :
    ∃ rs, fr.ev = Event.forward mode f (isInnerLoopOf params) rs := by
  unfold forwardPass at h
  cases hr : resolveVars mode m.init (m.infNames f l params) tf with
  | error e => rw [hr] at h; cases h
  | ok rr =>
    rw [hr] at h
    injection h with h
    rw [← h]
    exact ⟨rr.resolved, rfl⟩

theorem forwardPass_ro (m : ModelFns) (f l : Tensor) (params : Params)
    (tf : TFState) (fr : ForwardResult)
    (h : forwardPass VarMode.reuseOnly m f l params tf = Except.ok fr) :
    fr.tf = tf ∧ ∃ rs, fr.ev = Event.forward VarMode.reuseOnly f (isInnerLoopOf params) rs ∧
      ∀ nv ∈ rs, dictGet tf.store nv.1 = some nv.2 := by
  unfold forwardPass resolveVars at h
  cases hr : resolveVarsRO (m.infNames f l params) tf with
  | error e => rw [hr] at h; cases h
  | ok rr =>
    rw [hr] at h
    injection h with h
    rw [← h]
    exact ⟨resolveVarsRO_tf _ _ _ hr, rr.resolved, rfl, resolveVarsRO_resolved _ _ _ hr⟩

theorem isInnerLoopOf_setKey (p : Params) (b : Bool) :
    isInnerLoopOf (setKey p "is_inner_loop" (PyVal.bool b)) = b := by
  unfold isInnerLoopOf
  rw [dictGet_setKey_self]

theorem countAG_append (t t' : List Event) : countAG (t ++ t') = countAG t + countAG t' := by
  simp [countAG, List.filter_append]

theorem countAG_forward (mode : VarMode) (f : Tensor) (b : Bool)
    (rs : List (String × Tensor)) : countAG [Event.forward mode f b rs] = 0 := rfl

theorem isApplyGrads_true : isApplyGrads Event.applyGrads = true := rfl

theorem adaptStep_shape (cfg : Config) (m : ModelFns) (params : Params) (acc : LoopAcc)
    (b : Tensor × Tensor) (acc2 : LoopAcc)
    (h : adaptStep cfg m params acc b = Except.ok acc2) :
    ∃ ev loss outs, isApplyGrads ev = false ∧
      acc2.trace = acc.trace ++ [ev, Event.applyGrads] ∧
      acc2.innerLosses = acc.innerLosses ++ [loss] ∧
      acc2.innerOutputs = acc.innerOutputs ++ [outs] := by
  unfold adaptStep at h
  cases h1 : forwardPass VarMode.customGetter m b.1 b.2 params acc.tf with
  | error e => rw [h1] at h; cases h
  | ok fr =>
    rw [h1] at h
    dsimp only at h
    cases h2 : extractTrainLoss (m.trainFn b.1 b.2 fr.outs params) with
    | error e => rw [h2] at h; cases h
    | ok loss =>
      rw [h2] at h
      dsimp only at h
      cases h3 : applyGradientsStep cfg m loss fr.tf with
      | error e => rw [h3] at h; cases h
      | ok tf2 =>
        rw [h3] at h
        dsimp only at h
        injection h with h
        obtain ⟨rs, hev⟩ := forwardPass_ev _ _ _ _ _ _ _ h1
        refine ⟨fr.ev, loss, fr.outs, ?_, ?_, ?_, ?_⟩
        · rw [hev]
          rfl
        all_goals rw [← h]

theorem adaptLoop_count (cfg : Config) (m : ModelFns) (params : Params)
    (bs : List (Tensor × Tensor)) (acc acc' : LoopAcc)
    (h : adaptLoop cfg m params bs acc = Except.ok acc') :
    countAG acc'.trace = countAG acc.trace + bs.length ∧
    acc'.innerLosses.length = acc.innerLosses.length + bs.length := by
  induction bs generalizing acc with
  | nil =>
    simp only [adaptLoop] at h
    injection h with h
    rw [← h]
    simp
  | cons b bs ih =>
    simp only [adaptLoop] at h
    cases h1 : adaptStep cfg m params acc b with
    | error e => rw [h1] at h; cases h
    | ok acc1 =>
      rw [h1] at h
      dsimp only at h
      obtain ⟨hcnt, hlen⟩ := ih acc1 h
      obtain ⟨ev, loss, outs, hev, htr, hll, _⟩ := adaptStep_shape _ _ _ _ _ _ h1
      constructor
      · rw [hcnt, htr, countAG_append]
        have hone : countAG [ev, Event.applyGrads] = 1 := by
          simp [countAG, List.filter_cons, hev, isApplyGrads_true]
        rw [hone]
        simp only [List.length_cons]
        omega
      · rw [hlen, hll]
        simp only [List.length_append, List.length_cons, List.length_nil]
        omega

/-- Shape of the post-loop part of `inner_loop`: the convergence-check
pass uses the `params['is_inner_loop']` flag of the loop, the conditioned
pass flips it to `False`, the unconditioned pass flips it back to `True`
and reads only the variable store, changing nothing. -/
theorem innerLoopTail_shape (cfg : Config) (m : ModelFns) (params1 : Params)
    (valF valL fconv lconv : Tensor) (acc : LoopAcc) (r : InnerLoopResult)
    (h : innerLoopTail cfg m params1 valF valL fconv lconv acc = Except.ok r) :
    ∃ rs1 rs2 rs3,
      r.trace = acc.trace ++
        [Event.forward VarMode.customGetter fconv (isInnerLoopOf params1) rs1,
         Event.forward VarMode.customGetter valF false rs2,
         Event.forward VarMode.reuseOnly valF true rs3] ∧
      (∀ nv ∈ rs3, dictGet r.tf.store nv.1 = some nv.2) ∧
      r.innerLosses.length = acc.innerLosses.length + 1 ∧
      r.params = setKey (setKey params1 "is_inner_loop" (PyVal.bool false))
        "is_inner_loop" (PyVal.bool true) ∧
      r.outputs.length = 2 := by
  unfold innerLoopTail at h
  cases h1 : forwardPass VarMode.customGetter m fconv lconv params1 acc.tf with
  | error e => rw [h1] at h; cases h
  | ok frConv =>
    rw [h1] at h
    dsimp only at h
    cases h2 : extractTrainLoss (m.trainFn fconv lconv frConv.outs params1) with
    | error e => rw [h2] at h; cases h
    | ok convLoss =>
      rw [h2] at h
      dsimp only at h
      cases h3 : forwardPass VarMode.customGetter m valF valL
          (setKey params1 "is_inner_loop" (PyVal.bool false)) frConv.tf with
      | error e => rw [h3] at h; cases h
      | ok frCond =>
        rw [h3] at h
        dsimp only at h
        cases h4 : forwardPass VarMode.reuseOnly m valF valL
            (setKey (setKey params1 "is_inner_loop" (PyVal.bool false))
              "is_inner_loop" (PyVal.bool true)) frCond.tf with
        | error e => rw [h4] at h; cases h
        | ok frUncond =>
          rw [h4] at h
          dsimp only at h
          injection h with h
          obtain ⟨rs1, hev1⟩ := forwardPass_ev _ _ _ _ _ _ _ h1
          obtain ⟨rs2, hev2⟩ := forwardPass_ev _ _ _ _ _ _ _ h3
          obtain ⟨htf4, rs3, hev3, hstore⟩ := forwardPass_ro _ _ _ _ _ _ h4
          refine ⟨rs1, rs2, rs3, ?_, ?_, ?_, ?_, ?_⟩
          · rw [← h]
            show acc.trace ++ [frConv.ev, frCond.ev, frUncond.ev] = _
            rw [hev1, hev2, hev3, isInnerLoopOf_setKey, isInnerLoopOf_setKey]
          · intro nv hnv
            rw [← h]
            show dictGet frUncond.tf.store nv.1 = some nv.2
            rw [htf4]
            exact hstore nv hnv
          · rw [← h]
            show (acc.innerLosses ++ [convLoss]).length = _
            simp
          · rw [← h]
          · rw [← h]
            rfl

/-- Decomposition of a successful `inner_loop` call into its stages. -/
theorem innerLoop_shape (cfg : Config) (m : ModelFns)
    (inputsList : List (Tensor × Tensor)) (params0 : Option Params) (tf0 : TFState)
    (r : InnerLoopResult)
    (hok : innerLoop cfg m inputsList params0 tf0 = Except.ok r) :
    ∃ vl fc acc,
      inputsList.getLast? = some vl ∧
      inputsList.reverse[1]? = some fc ∧
      adaptLoop cfg m (setKey (params0.getD []) "is_inner_loop" (PyVal.bool true))
        inputsList.dropLast ⟨tf0, [], [], []⟩ = Except.ok acc ∧
      innerLoopTail cfg m (setKey (params0.getD []) "is_inner_loop" (PyVal.bool true))
        vl.1 vl.2 fc.1 fc.2 acc = Except.ok r := by
  unfold innerLoop at hok
  cases hlast : inputsList.getLast? with
  | none => rw [hlast] at hok; cases hok
  | some vl =>
    rw [hlast] at hok
    dsimp only at hok
    cases hloop : adaptLoop cfg m (setKey (params0.getD []) "is_inner_loop" (PyVal.bool true))
        inputsList.dropLast ⟨tf0, [], [], []⟩ with
    | error e => rw [hloop] at hok; cases hok
    | ok acc =>
      rw [hloop] at hok
      dsimp only at hok
      cases hm2 : inputsList.reverse[1]? with
      | none => rw [hm2] at hok; cases hok
      | some fc =>
        rw [hm2] at hok
        dsimp only at hok
        exact ⟨vl, fc, acc, rfl, rfl, rfl, hok⟩

theorem getLast?_append_three {α : Type} (l : List α) (a b c : α) :
    (l ++ [a, b, c]).getLast? = some c := by
  rw [show l ++ [a, b, c] = (l ++ [a, b]) ++ [c] by simp]
  exact getLast?_snoc _ _

/-! The claims. -/

/-- C1: for every parameter in the current cache that passes the scope
filter and has a defined gradient, `_compute_and_apply_gradients` stores
under the same name the value `old_value - learning_rate * gradient`
(shown both as the stored tensor and under value semantics for every
environment), and the per-parameter result does not depend on the other
parameters: any state with the same learning-rate registry whose cache
contains the same entry — in whatever position and company — yields the
identical stored tensor, which is a function of the entry alone. -/
theorem claim1_update_rule (cfg : Config) (gradFn : Tensor → Option Tensor) (s : State)
    (n : String) (v g : Tensor) (env : String → Int)
    (hnodup : (s.customGetterVariableCache.map (fun nv => nv.1)).Nodup)
    (hmem : (n, v) ∈ s.customGetterVariableCache)
    (hscope : ignoreVar cfg n = false)
    (hgrad : gradFn v = some g) :
    (∃ s', computeAndApplyGradients cfg gradFn s = CAGOutcome.ok s' ∧
      dictGet s'.customGetterVariableCache n =
        some (Tensor.sub v (maybeStop cfg (Tensor.mul (lrFor cfg s.lrCache n) g))) ∧
      ((dictGet s'.customGetterVariableCache n).getD (Tensor.lit 0)).eval env =
        v.eval env - (lrFor cfg s.lrCache n).eval env * g.eval env) ∧
    (∀ t : State, t.lrCache = s.lrCache →
      (t.customGetterVariableCache.map (fun nv => nv.1)).Nodup →
      (n, v) ∈ t.customGetterVariableCache →
      ∃ t', computeAndApplyGradients cfg gradFn t = CAGOutcome.ok t' ∧
        dictGet t'.customGetterVariableCache n =
          some (Tensor.sub v (maybeStop cfg (Tensor.mul (lrFor cfg s.lrCache n) g)))) := by
  have key : ∀ t : State, t.lrCache = s.lrCache →
      (t.customGetterVariableCache.map (fun nv => nv.1)).Nodup →
      (n, v) ∈ t.customGetterVariableCache →
      ∃ t', computeAndApplyGradients cfg gradFn t = CAGOutcome.ok t' ∧
        dictGet t'.customGetterVariableCache n =
          some (Tensor.sub v (maybeStop cfg (Tensor.mul (lrFor cfg s.lrCache n) g))) := by
    intro t hlr hn hm
    obtain ⟨t', hok, hd⟩ := cag_dictGet cfg gradFn t n v hn hm
    refine ⟨t', hok, ?_⟩
    rw [hd, hlr, hgrad]
    simp [newValueFor, hscope]
  obtain ⟨s', hok, hd⟩ := key s rfl hnodup hmem
  refine ⟨⟨s', hok, hd, ?_⟩, key⟩
  rw [hd]
  simp [Tensor.eval, eval_maybeStop]

/-- C2: every name of generation `k` is present in generation `k+1`, and
is carried forward with the identical value whenever its gradient is
absent or its name fails the scope filter. -/
theorem claim2_carry_forward (cfg : Config) (gradFn : Tensor → Option Tensor) (s : State)
    (n : String) (v : Tensor)
    (hnodup : (s.customGetterVariableCache.map (fun nv => nv.1)).Nodup)
    (hmem : (n, v) ∈ s.customGetterVariableCache) :
    ∃ s', computeAndApplyGradients cfg gradFn s = CAGOutcome.ok s' ∧
      (dictGet s'.customGetterVariableCache n).isSome = true ∧
      ((gradFn v = none ∨ ignoreVar cfg n = true) →
        dictGet s'.customGetterVariableCache n = some v) := by
  obtain ⟨s', hok, hd⟩ := cag_dictGet cfg gradFn s n v hnodup hmem
  refine ⟨s', hok, by rw [hd]; rfl, ?_⟩
  rintro (hg | hig)
  · rw [hd, hg]
    rfl
  · rw [hd]
    cases hgf : gradFn v with
    | none => rfl
    | some grad => simp [newValueFor, hig]

/-- C3 counterexample: on a 2-batch input the code performs 1 call to
`_compute_and_apply_gradients`, not `len(batches) - 2 = 0` as the claim
states. -/
theorem claim3_counterexample :
    countAGOfRun cexRun = some 1 ∧ cexInputs.length - 2 = 0 ∧ (1 : Nat) ≠ 0 :=
  ⟨rfl, rfl, by decide⟩

/-- C3 (amended): for every input batch list of length `n >= 2`, exactly
`n - 1` gradient-update invocations of `_compute_and_apply_gradients` are
performed (one per adaptation batch, matching the source docstring), after
which one convergence-check forward pass runs on the last adaptation batch
with no further gradient step, followed only by the conditioned and
unconditioned evaluation passes; `inner_losses` has one entry per
adaptation batch plus one for the convergence check. -/
theorem claim3_amended (cfg : Config) (m : ModelFns) (inputsList : List (Tensor × Tensor))
    (params0 : Option Params) (tf0 : TFState) (r : InnerLoopResult)
    (hlen : 2 ≤ inputsList.length)
    (hok : innerLoop cfg m inputsList params0 tf0 = Except.ok r) :
    countAG r.trace = inputsList.length - 1 ∧
    r.innerLosses.length = inputsList.length ∧
    ∃ pre vl fc rs1 rs2 rs3,
      inputsList.getLast? = some vl ∧
      inputsList.reverse[1]? = some fc ∧
      r.trace = pre ++
        [Event.forward VarMode.customGetter fc.1 true rs1,
         Event.forward VarMode.customGetter vl.1 false rs2,
         Event.forward VarMode.reuseOnly vl.1 true rs3] ∧
      countAG pre = inputsList.length - 1 := by
  obtain ⟨vl, fc, acc, hlast, hm2, hloop, htail⟩ := innerLoop_shape _ _ _ _ _ _ hok
  obtain ⟨hcnt, hll⟩ := adaptLoop_count _ _ _ _ _ _ hloop
  obtain ⟨rs1, rs2, rs3, htr, _, hlosslen, _, _⟩ :=
    innerLoopTail_shape _ _ _ _ _ _ _ _ _ htail
  rw [isInnerLoopOf_setKey] at htr
  have hpre : countAG acc.trace = inputsList.length - 1 := by
    have h0 : countAG (⟨tf0, [], [], []⟩ : LoopAcc).trace = 0 := rfl
    rw [hcnt, h0, List.length_dropLast]
    omega
  have hll2 : acc.innerLosses.length = inputsList.length - 1 := by
    have h0 : (⟨tf0, [], [], []⟩ : LoopAcc).innerLosses.length = 0 := rfl
    rw [hll, h0, List.length_dropLast]
    omega
  refine ⟨?_, ?_, acc.trace, vl, fc, rs1, rs2, rs3, hlast, hm2, htr, hpre⟩
  · rw [htr, countAG_append, hpre]
    have h3 : countAG [Event.forward VarMode.customGetter fc.1 true rs1,
        Event.forward VarMode.customGetter vl.1 false rs2,
        Event.forward VarMode.reuseOnly vl.1 true rs3] = 0 := rfl
    rw [h3]
    omega
  · rw [hlosslen, hll2]
    omega

/-- C4 counterexample: a 3-tuple does not raise the
unrecognized-train-result error; `_extract_train_loss` returns its first
element (`isinstance(x, tuple)` matches every tuple). -/
theorem claim4_counterexample :
    extractTrainLoss (PyVal.tuple
      [PyVal.tensor (Tensor.lit 1), PyVal.tensor (Tensor.lit 2),
       PyVal.tensor (Tensor.lit 3)]) = Except.ok (PyVal.tensor (Tensor.lit 1)) ∧
    extractTrainLoss (PyVal.tuple
      [PyVal.tensor (Tensor.lit 1), PyVal.tensor (Tensor.lit 2),
       PyVal.tensor (Tensor.lit 3)]) ≠ Except.error Err.valueError :=
  ⟨rfl, fun h => Except.noConfusion h⟩

/-- C4 (amended): `_extract_train_loss` returns a bare tensor unchanged,
returns the first element of every non-empty tuple (pairs and longer
tuples alike), raises the unrecognized-train-result `ValueError` for bare
non-tensor non-tuple values, and hits an `IndexError` on the empty
tuple. -/
theorem claim4_amended :
    (∀ t, extractTrainLoss (PyVal.tensor t) = Except.ok (PyVal.tensor t)) ∧
    (∀ x xs, extractTrainLoss (PyVal.tuple (x :: xs)) = Except.ok x) ∧
    (∀ s, extractTrainLoss (PyVal.str s) = Except.error Err.valueError) ∧
    (∀ b, extractTrainLoss (PyVal.bool b) = Except.error Err.valueError) ∧
    extractTrainLoss PyVal.noneVal = Except.error Err.valueError ∧
    extractTrainLoss (PyVal.tuple []) = Except.error Err.indexError :=
  ⟨fun _ => rfl, fun _ _ => rfl, fun _ => rfl, fun _ => rfl, rfl, rfl⟩

/-- C5: `_compute_and_apply_gradients` on an empty cache raises the
precondition `ValueError`, with the instance state exactly as it was (the
raise happens before any mutation). -/
theorem claim5_empty_cache (cfg : Config) (gradFn : Tensor → Option Tensor) (s : State)
    (h : s.customGetterVariableCache = []) :
    computeAndApplyGradients cfg gradFn s = CAGOutcome.raised Err.precondition s := by
  rw [computeAndApplyGradients, if_pos h]

/-- C6 counterexample: in a concrete two-batch run, the unconditioned
pass resolves `"w"` to the original store value `5` while the latest
adapted cache holds `5 - 1*1` (value `4`): the unconditioned pass does
not use the latest cache. -/
theorem claim6_counterexample :
    lastTraceEvent cexRun =
      some (Event.forward VarMode.reuseOnly (Tensor.lit 20) true [("w", Tensor.lit 5)]) ∧
    latestCacheValue cexRun "w" =
      some (some (Tensor.sub (Tensor.lit 5) (Tensor.mul (Tensor.lit 1) (Tensor.lit 1)))) ∧
    storeValue cexRun "w" = some (some (Tensor.lit 5)) ∧
    Tensor.eval (fun _ => 0) (Tensor.lit 5) = 5 ∧
    Tensor.eval (fun _ => 0)
      (Tensor.sub (Tensor.lit 5) (Tensor.mul (Tensor.lit 1) (Tensor.lit 1))) = 4 :=
  ⟨rfl, rfl, rfl, rfl, rfl⟩

/-- C6 (amended): the unconditioned evaluation pass of `inner_loop` runs
on the validation batch with `is_inner_loop = True` in reuse-only mode
*without* the interceptor: every parameter it resolves comes from the
original variable store (not from the adapted cache), and reuse-only
resolution never creates entries or changes any state. -/
theorem claim6_amended (cfg : Config) (m : ModelFns) (inputsList : List (Tensor × Tensor))
    (params0 : Option Params) (tf0 : TFState) (r : InnerLoopResult)
    (vl : Tensor × Tensor)
    (hok : innerLoop cfg m inputsList params0 tf0 = Except.ok r)
    (hval : inputsList.getLast? = some vl) :
    (∃ rs, r.trace.getLast? = some (Event.forward VarMode.reuseOnly vl.1 true rs) ∧
      ∀ nv ∈ rs, dictGet r.tf.store nv.1 = some nv.2) ∧
    (∀ names tf rr, resolveVarsRO names tf = Except.ok rr → rr.tf = tf) := by
  obtain ⟨vl', fc, acc, hlast, hm2, hloop, htail⟩ := innerLoop_shape _ _ _ _ _ _ hok
  have hvl : vl' = vl := by
    rw [hval] at hlast
    injection hlast with h
    exact h.symm
  subst hvl
  obtain ⟨rs1, rs2, rs3, htr, hstore, _, _, _⟩ :=
    innerLoopTail_shape _ _ _ _ _ _ _ _ _ htail
  refine ⟨⟨rs3, ?_, hstore⟩, fun names tf rr hh => resolveVarsRO_tf names tf rr hh⟩
  rw [htr]
  exact getLast?_append_three _ _ _ _

/-- C7: the interceptor returns the cached value on a hit (independently
of the original getter), materializes through the getter exactly once on a
miss — appending a single entry holding the getter's result and returning
it — and a repeated resolution of the same name is a pure cache hit
returning the same value and leaving the cache unchanged. -/
theorem claim7_interceptor (getter getter2 : String → Tensor) (cache : Cache)
    (name : String) (v : Tensor) :
    (dictGet cache name = some v →
      customGetterFn getter cache name = (some v, cache)) ∧
    (dictGet cache name = none →
      customGetterFn getter cache name =
        (some (getter name), cache ++ [(name, getter name)])) ∧
    (dictGet cache name = some v →
      customGetterFn getter cache name = customGetterFn getter2 cache name) ∧
    (∀ res cache2, customGetterFn getter cache name = (res, cache2) →
      customGetterFn getter cache2 name = (res, cache2)) := by
  have hhit : ∀ (g : String → Tensor) (w : Tensor), dictGet cache name = some w →
      customGetterFn g cache name = (some w, cache) := by
    intro g w h
    simp [customGetterFn, h]
  have hmiss : dictGet cache name = none →
      customGetterFn getter cache name =
        (some (getter name), cache ++ [(name, getter name)]) := by
    intro h
    simp [customGetterFn, h, dictGet_append_none _ h, dictGet]
  refine ⟨hhit getter v, hmiss, ?_, ?_⟩
  · intro h
    rw [hhit getter v h, hhit getter2 v h]
  · intro res cache2 heq
    cases hd : dictGet cache name with
    | some w =>
      rw [hhit getter w hd] at heq
      injection heq with h1 h2
      rw [← h1, ← h2]
      exact hhit getter w hd
    | none =>
      rw [hmiss hd] at heq
      injection heq with h1 h2
      rw [← h1, ← h2]
      have hd2 : dictGet (cache ++ [(name, getter name)]) name = some (getter name) := by
        rw [dictGet_append_none _ hd]
        simp [dictGet]
      simp [customGetterFn, hd2]

/-- C8: the learning-rate registry is idempotent over the lifetime of one
instance: after a first `_get_learning_rate(n)` call, any later call for
`n` — with arbitrary other calls in between — returns the same scalar and
leaves the registry unchanged (an entry is created at most once per
name). -/
theorem claim8_lr_registry (lrc : LrCache) (n : String) (ms : List String) :
    (getLearningRate (runCalls (getLearningRate lrc n).2 ms) n).1 =
      (getLearningRate lrc n).1 ∧
    (getLearningRate (runCalls (getLearningRate lrc n).2 ms) n).2 =
      runCalls (getLearningRate lrc n).2 ms := by
  have h1 := getLearningRate_dictGet_self lrc n
  have h2 := runCalls_keeps ms h1
  rw [getLearningRate_of_dictGet h2]
  exact ⟨rfl, rfl⟩

/-- C9: when `use_second_order` is `False`, the stored update is
`old_value - stop_gradient(learning_rate * gradient)` — the stop-gradient
wraps the scaled gradient before the subtraction; when it is `True`, no
stop-gradient node is inserted. -/
theorem claim9_first_order_stop (cfg : Config) (gradFn : Tensor → Option Tensor)
    (s : State) (n : String) (v g : Tensor)
    (hnodup : (s.customGetterVariableCache.map (fun nv => nv.1)).Nodup)
    (hmem : (n, v) ∈ s.customGetterVariableCache)
    (hscope : ignoreVar cfg n = false)
    (hgrad : gradFn v = some g) :
    ∃ s', computeAndApplyGradients cfg gradFn s = CAGOutcome.ok s' ∧
      dictGet s'.customGetterVariableCache n =
        some (Tensor.sub v (if cfg.useSecondOrder
          then Tensor.mul (lrFor cfg s.lrCache n) g
          else Tensor.stopGradient (Tensor.mul (lrFor cfg s.lrCache n) g))) := by
  obtain ⟨s', hok, hd⟩ := cag_dictGet cfg gradFn s n v hnodup hmem
  refine ⟨s', hok, ?_⟩
  rw [hd, hgrad]
  simp [newValueFor, hscope, maybeStop]

/-- C10: `inner_loop` sets `params['is_inner_loop'] = True` at the start,
flips it to `False` for the conditioned pass and back to `True` for the
unconditioned pass, so after a successful return the dictionary has
`is_inner_loop = True` while every other key is untouched. -/
theorem claim10_params_in_place (cfg : Config) (m : ModelFns)
    (inputsList : List (Tensor × Tensor)) (p : Params) (tf0 : TFState)
    (r : InnerLoopResult)
    (hok : innerLoop cfg m inputsList (some p) tf0 = Except.ok r) :
    dictGet r.params "is_inner_loop" = some (PyVal.bool true) ∧
    (∀ k, k ≠ "is_inner_loop" → dictGet r.params k = dictGet p k) ∧
    ∃ (pre : List Event) (vl : Tensor × Tensor) (rs2 rs3 : List (String × Tensor)),
      r.trace = pre ++
        [Event.forward VarMode.customGetter vl.1 false rs2,
         Event.forward VarMode.reuseOnly vl.1 true rs3] := by
  obtain ⟨vl, fc, acc, hlast, hm2, hloop, htail⟩ := innerLoop_shape _ _ _ _ _ _ hok
  obtain ⟨rs1, rs2, rs3, htr, _, _, hparams, _⟩ :=
    innerLoopTail_shape _ _ _ _ _ _ _ _ _ htail
  refine ⟨?_, ?_, ?_⟩
  · rw [hparams, dictGet_setKey_self]
  · intro k hk
    rw [hparams, dictGet_setKey_ne _ _ hk, dictGet_setKey_ne _ _ hk,
      dictGet_setKey_ne _ _ hk]
    rfl
  · refine ⟨acc.trace ++ [Event.forward VarMode.customGetter fc.1
      (isInnerLoopOf (setKey ((some p).getD []) "is_inner_loop" (PyVal.bool true))) rs1],
      vl, rs2, rs3, ?_⟩
    rw [htr]
    simp

/-! Witnesses. -/

theorem claim1_witness :
    ∃ s', computeAndApplyGradients wCfg wGradFn wState = CAGOutcome.ok s' ∧
      dictGet s'.customGetterVariableCache "a" =
        some (Tensor.sub (Tensor.lit 3) (maybeStop wCfg
          (Tensor.mul (lrFor wCfg wState.lrCache "a") (Tensor.lit 4)))) ∧
      ((dictGet s'.customGetterVariableCache "a").getD (Tensor.lit 0)).eval (fun _ => 0) =
        (Tensor.lit 3).eval (fun _ => 0) -
          (lrFor wCfg wState.lrCache "a").eval (fun _ => 0) *
            (Tensor.lit 4).eval (fun _ => 0) :=
  (claim1_update_rule wCfg wGradFn wState "a" (Tensor.lit 3) (Tensor.lit 4) (fun _ => 0)
    (by decide) (by decide) rfl rfl).1

theorem claim2_witness :
    ∃ s', computeAndApplyGradients w2Cfg w2GradFn w2State = CAGOutcome.ok s' ∧
      (dictGet s'.customGetterVariableCache "decoder/weight").isSome = true ∧
      ((w2GradFn (Tensor.lit 7) = none ∨ ignoreVar w2Cfg "decoder/weight" = true) →
        dictGet s'.customGetterVariableCache "decoder/weight" = some (Tensor.lit 7)) :=
  claim2_carry_forward w2Cfg w2GradFn w2State "decoder/weight" (Tensor.lit 7)
    (by decide) (by decide)

theorem claim3_amended_witness :
    countAG (okResult cexRun).trace = cexInputs.length - 1 ∧
    (okResult cexRun).innerLosses.length = cexInputs.length ∧
    ∃ pre vl fc rs1 rs2 rs3,
      cexInputs.getLast? = some vl ∧
      cexInputs.reverse[1]? = some fc ∧
      (okResult cexRun).trace = pre ++
        [Event.forward VarMode.customGetter fc.1 true rs1,
         Event.forward VarMode.customGetter vl.1 false rs2,
         Event.forward VarMode.reuseOnly vl.1 true rs3] ∧
      countAG pre = cexInputs.length - 1 :=
  claim3_amended cexCfg cexModel cexInputs (some []) cexTF0 (okResult cexRun)
    (by decide) rfl

theorem claim4_amended_witness :
    extractTrainLoss (PyVal.tensor (Tensor.lit 2)) =
      Except.ok (PyVal.tensor (Tensor.lit 2)) ∧
    extractTrainLoss (PyVal.tuple [PyVal.tensor (Tensor.lit 1), PyVal.noneVal]) =
      Except.ok (PyVal.tensor (Tensor.lit 1)) ∧
    extractTrainLoss (PyVal.str "oops") = Except.error Err.valueError :=
  ⟨claim4_amended.1 (Tensor.lit 2),
   claim4_amended.2.1 (PyVal.tensor (Tensor.lit 1)) [PyVal.noneVal],
   claim4_amended.2.2.1 "oops"⟩

theorem claim5_witness :
    computeAndApplyGradients wCfg wGradFn w5State =
      CAGOutcome.raised Err.precondition w5State :=
  claim5_empty_cache wCfg wGradFn w5State rfl

theorem claim6_amended_witness :
    ∃ rs, (okResult cexRun).trace.getLast? =
        some (Event.forward VarMode.reuseOnly (Tensor.lit 20) true rs) ∧
      ∀ nv ∈ rs, dictGet (okResult cexRun).tf.store nv.1 = some nv.2 :=
  (claim6_amended cexCfg cexModel cexInputs (some []) cexTF0 (okResult cexRun)
    (Tensor.lit 20, Tensor.lit 21) rfl rfl).1

theorem claim7_witness :
    customGetterFn w7Getter w7Cache "a" = (some (Tensor.lit 1), w7Cache) ∧
    customGetterFn w7Getter w7Cache "b" =
      (some (w7Getter "b"), w7Cache ++ [("b", w7Getter "b")]) :=
  ⟨(claim7_interceptor w7Getter w7GetterB w7Cache "a" (Tensor.lit 1)).1 rfl,
   (claim7_interceptor w7Getter w7GetterB w7Cache "b" (Tensor.lit 1)).2.1 rfl⟩

theorem claim8_witness :
    (getLearningRate (runCalls (getLearningRate [] "a/b").2 ["c"]) "a/b").1 =
      (getLearningRate [] "a/b").1 ∧
    (getLearningRate (runCalls (getLearningRate [] "a/b").2 ["c"]) "a/b").2 =
      runCalls (getLearningRate [] "a/b").2 ["c"] :=
  claim8_lr_registry [] "a/b" ["c"]

theorem claim9_witness :
    ∃ s', computeAndApplyGradients w9Cfg w9GradFn w9State = CAGOutcome.ok s' ∧
      dictGet s'.customGetterVariableCache "b" =
        some (Tensor.sub (Tensor.lit 6) (if w9Cfg.useSecondOrder
          then Tensor.mul (lrFor w9Cfg w9State.lrCache "b") (Tensor.lit 3)
          else Tensor.stopGradient (Tensor.mul (lrFor w9Cfg w9State.lrCache "b")
            (Tensor.lit 3)))) :=
  claim9_first_order_stop w9Cfg w9GradFn w9State "b" (Tensor.lit 6) (Tensor.lit 3)
    (by decide) (by decide) rfl rfl

theorem claim10_witness :
    dictGet (okResult cexRun).params "is_inner_loop" = some (PyVal.bool true) :=
  (claim10_params_in_place cexCfg cexModel cexInputs [] cexTF0 (okResult cexRun) rfl).1

end Maml
